/-
Verification of the vanilla NeRF graph (mattport/nerf/graph/vanilla_nerf.py).

Shallow embedding over ℚ: tensors become (nested) lists of rationals, one
outer list entry per ray, one inner entry per sample.  The learned
submodules of a field (encodings, MLPs, heads) are abstract functions — a
fixed set of parameters determines such functions, so quantifying over them
quantifies over all parameter settings.  Collaborator modules that are not
part of the repository slice under verification (samplers, renderers,
get_weights, the MSE loss, the MLP constructor) are modelled from the spec;
each such definition carries a doc comment saying so.  The exponential of
the volume-rendering equation is modelled by an explicit function parameter
E : ℚ → ℚ, with its analytic properties taken as hypotheses where needed.
-/
import Mathlib

/-- A 3-vector of rationals (a point, direction or color). -/
abbrev Vec3 : Type := ℚ × ℚ × ℚ

/-- Componentwise addition of 3-vectors. -/
def v3add (a b : Vec3) : Vec3 := (a.1 + b.1, a.2.1 + b.2.1, a.2.2 + b.2.2)

/-- Scalar multiplication of a 3-vector. -/
def v3smul (c : ℚ) (a : Vec3) : Vec3 := (c * a.1, c * a.2.1, c * a.2.2)

/-- Sum of a list of 3-vectors. -/
def v3sum (l : List Vec3) : Vec3 := l.foldr v3add (0, 0, 0)

/-- A single ray: origin and direction (from mattport.structures.rays.RayBundle). -/
structure Ray where
  origin : Vec3
  direction : Vec3
deriving DecidableEq

/-- A bundle of rays. -/
abbrev RayBundle : Type := List Ray

/-- One sample along a ray: its depth t and the length delta of the
quadrature interval centered at it. -/
structure RaySampleT where
  t : ℚ
  delta : ℚ
deriving DecidableEq

/-- The samples taken along one ray (mattport.structures.rays.RaySamples,
restricted to one ray). -/
structure RaySamplesOne where
  ray : Ray
  samples : List RaySampleT
deriving DecidableEq

/-- Samples for a bundle: one RaySamplesOne per ray. -/
abbrev RaySamples : Type := List RaySamplesOne

/-- The 3-D position of a sample: origin + t * direction. -/
def RaySamplesOne.position (one : RaySamplesOne) (s : RaySampleT) : Vec3 :=
  v3add one.ray.origin (v3smul s.t one.ray.direction)

/-- Per-ray, per-sample positions (ray_samples.positions). -/
def RaySamples.positions (rs : RaySamples) : List (List Vec3) :=
  rs.map (fun one => one.samples.map one.position)

/-- Per-ray, per-sample directions (ray_samples.directions): every sample of a
ray carries that ray's direction. -/
def RaySamples.directions (rs : RaySamples) : List (List Vec3) :=
  rs.map (fun one => one.samples.map (fun _ => one.ray.direction))

/-- Per-ray, per-sample depths (ray_samples.ts). -/
def RaySamples.ts (rs : RaySamples) : List (List ℚ) :=
  rs.map (fun one => one.samples.map RaySampleT.t)

/-- Output kinds of the field heads (FieldHeadNames). -/
inductive FieldHeadNames where
  | RGB
  | DENSITY
deriving DecidableEq

/-- A tensor stored in a FieldOutputs mapping: per-ray, per-sample colors or
per-ray, per-sample densities. -/
inductive FieldVal where
  | rgbs (v : List (List Vec3))
  | densities (v : List (List ℚ))
deriving DecidableEq

/-- The mapping returned by a field: output kind to tensor, in insertion
order (the FieldOutputs dict of vanilla_nerf.py). -/
abbrev FieldOutputs : Type := List (FieldHeadNames × FieldVal)

/-- Association-list lookup of the first binding of a key. -/
def lookupKey {α β : Type} [DecidableEq α] (k : α) : List (α × β) → Option β
  | [] => none
  | (k2, v) :: rest => if k = k2 then some v else lookupKey k rest

/-- The DENSITY tensor of a FieldOutputs mapping (indexing
field_outputs[FieldHeadNames.DENSITY]; empty if absent). -/
def FieldOutputs.densityOf (fo : FieldOutputs) : List (List ℚ) :=
  match lookupKey FieldHeadNames.DENSITY fo with
  | some (FieldVal.densities v) => v
  | _ => []

/-- The RGB tensor of a FieldOutputs mapping (indexing
field_outputs[FieldHeadNames.RGB]; empty if absent). -/
def FieldOutputs.rgbOf (fo : FieldOutputs) : List (List Vec3) :=
  match lookupKey FieldHeadNames.RGB fo with
  | some (FieldVal.rgbs v) => v
  | _ => []

/-- Zip two per-ray, per-sample nested lists with f. -/
def zipWith2D {α β γ : Type} (f : α → β → γ) (xs : List (List α)) (ys : List (List β)) :
    List (List γ) :=
  List.zipWith (List.zipWith f) xs ys

/-- Functional model of NeRFField: the learned submodules built in
build_encodings, build_mlp_base, build_mlp_rgb and build_heads are abstract
functions, each standing for the module under one fixed set of parameters.
The wiring of NeRFField.forward is translated below. -/
structure NeRFField where
  encodingXyz : Vec3 → List ℚ
  encodingDir : Vec3 → List ℚ
  mlpBase : List ℚ → List ℚ
  mlpRgb : List ℚ → List ℚ
  headRgb : List ℚ → Vec3
  headDensity : List ℚ → ℚ

/-- NeRFField.forward, line by line: encode positions and directions, run the
base MLP on encoded positions, run the RGB MLP on the concatenation
torch.cat([encoded_dir, base_mlp_out]) — encoded direction first — apply the
heads, then build the dict by updating with the RGB head output and then the
density head output.  Each head returns a singleton mapping tagged with its
output kind (modelled from the spec: field heads, section 4.3). -/
def NeRFField.forward (F : NeRFField) (rs : RaySamples) : FieldOutputs :=
  let positions := rs.positions
  let directions := rs.directions
  let encodedXyz := positions.map (List.map F.encodingXyz)
  let encodedDir := directions.map (List.map F.encodingDir)
  let baseMlpOut := encodedXyz.map (List.map F.mlpBase)
  let rgbMlpOut := zipWith2D (fun d b => F.mlpRgb (d ++ b)) encodedDir baseMlpOut
  let fieldRgbOutput := rgbMlpOut.map (List.map F.headRgb)
  let fieldDensityOut := baseMlpOut.map (List.map F.headDensity)
  [(FieldHeadNames.RGB, FieldVal.rgbs fieldRgbOutput),
   (FieldHeadNames.DENSITY, FieldVal.densities fieldDensityOut)]

/-- C10: for every RaySamples input, the FieldOutputs mapping returned by
NeRFField.forward has exactly the two keys RGB and DENSITY, in that order. -/
theorem forward_keys_rgb_density (F : NeRFField) (rs : RaySamples) :
    (NeRFField.forward F rs).map Prod.fst = [FieldHeadNames.RGB, FieldHeadNames.DENSITY] := by
  rfl

/-- C2: the DENSITY entry of NeRFField.forward depends only on the sample
positions — two inputs with identical positions (directions free to differ)
yield identical density outputs, for every fixed set of field parameters. -/
theorem forward_density_position_only (F : NeRFField) (rs1 rs2 : RaySamples)
    (h : rs1.positions = rs2.positions) :
    FieldOutputs.densityOf (NeRFField.forward F rs1) =
      FieldOutputs.densityOf (NeRFField.forward F rs2) := by
  simp only [NeRFField.forward, FieldOutputs.densityOf, lookupKey, h]
  rfl

/-- Witness for C2: two one-ray sample sets whose single sample sits at the
same position but whose rays point in different directions. -/
theorem forward_density_position_only_witness :
    (RaySamples.positions [⟨⟨(0, 0, 0), (1, 0, 0)⟩, [⟨1, 1⟩]⟩] =
      RaySamples.positions [⟨⟨(1, 0, 0), (0, 1, 0)⟩, [⟨0, 1⟩]⟩]) ∧
    FieldOutputs.densityOf
        (NeRFField.forward ⟨fun _ => [], fun _ => [], id, id, fun _ => (0, 0, 0), fun _ => 0⟩
          [⟨⟨(0, 0, 0), (1, 0, 0)⟩, [⟨1, 1⟩]⟩]) =
      FieldOutputs.densityOf
        (NeRFField.forward ⟨fun _ => [], fun _ => [], id, id, fun _ => (0, 0, 0), fun _ => 0⟩
          [⟨⟨(1, 0, 0), (0, 1, 0)⟩, [⟨0, 1⟩]⟩]) :=
  ⟨by norm_num [RaySamples.positions, RaySamplesOne.position, v3add, v3smul],
   forward_density_position_only _ _ _
     (by norm_num [RaySamples.positions, RaySamplesOne.position, v3add, v3smul])⟩

/-- A concrete field whose RGB MLP is order-sensitive: the direction encoding
is [5], the base MLP output is [7], the RGB MLP is the identity and the RGB
head reads the first coordinate of its input. -/
def cexField : NeRFField where
  encodingXyz := fun _ => []
  encodingDir := fun _ => [5]
  mlpBase := fun _ => [7]
  mlpRgb := id
  headRgb := fun l => (l.headD 0, 0, 0)
  headDensity := fun _ => 0

/-- A one-ray, one-sample input for the concatenation-order counterexample. -/
def cexSamples : RaySamples := [⟨⟨(0, 0, 0), (0, 0, 1)⟩, [⟨1, 1⟩]⟩]

/-- C3 counterexample: on cexField and cexSamples the RGB entry produced by
NeRFField.forward differs from what the claim — base feature first in the
concatenation fed to mlp_rgb — would give.  The code feeds
mlp_rgb(cat([encoded_dir, base_mlp_out])), direction first, yielding first
coordinate 5; base-first would yield 7. -/
theorem forward_rgb_base_first_cex :
    FieldOutputs.rgbOf (NeRFField.forward cexField cexSamples) ≠
      zipWith2D
        (fun d b => cexField.headRgb (cexField.mlpRgb
          (cexField.mlpBase (cexField.encodingXyz b) ++ cexField.encodingDir d)))
        cexSamples.directions cexSamples.positions := by
  decide

/-- C3 amended: the input of the second shallow MLP (mlp_rgb) is the encoded
direction concatenated with the base MLP feature, the encoded direction
coming FIRST, and the RGB head is applied to that MLP's output. -/
theorem forward_rgb_dir_first (F : NeRFField) (rs : RaySamples) :
    FieldOutputs.rgbOf (NeRFField.forward F rs) =
      zipWith2D
        (fun d b => F.headRgb (F.mlpRgb (F.encodingDir d ++ F.mlpBase (F.encodingXyz b))))
        rs.directions rs.positions := by
  simp only [NeRFField.forward, FieldOutputs.rgbOf, lookupKey, zipWith2D, if_pos,
    List.map_zipWith, List.zipWith_map, List.map_map]
  congr 1
  funext d b
  simp [List.map_zipWith, List.zipWith_map, List.map_map, Function.comp]

/-- The per-sample alpha of the volume-rendering equation,
1 - exp(-density * delta), with exp modelled by E. -/
def alphaOf (E : ℚ → ℚ) (density delta : ℚ) : ℚ := 1 - E (-(density * delta))

/-- Weights from alphas: the first argument is the transmittance reaching the
current sample (1 at the first sample); each weight is alpha times
transmittance and the transmittance is multiplied by (1 - alpha) afterwards. -/
def weightsAux : ℚ → List ℚ → List ℚ
  | _, [] => []
  | T, a :: as => T * a :: weightsAux (T * (1 - a)) as

/-- Modelled from the spec: RaySamples.get_weights (volume renderer weights,
spec section 4.6) is not part of the source slice; per sample, alpha =
1 - exp(-density * interval length) and weight = alpha * transmittance, the
transmittance being the product of (1 - alpha) over the preceding samples,
starting at 1.  E stands for exp. -/
def RaySamples.getWeights (E : ℚ → ℚ) (rs : RaySamples) (densities : List (List ℚ)) :
    List (List ℚ) :=
  List.zipWith
    (fun one ds => weightsAux 1 (List.zipWith (fun σ s => alphaOf E σ s.delta) ds one.samples))
    rs densities

/-- Modelled from the spec: UniformSampler (spec section 4.5) is not part of
the source slice; the near/far interval is divided into num_samples equal
bins with one sample at each bin center (the deterministic, unjittered
variant), the bin being the quadrature interval of the sample. -/
def UniformSampler.sampleRay (near far : ℚ) (num : ℕ) (r : Ray) : RaySamplesOne :=
  let width := (far - near) / (num : ℚ)
  ⟨r, (List.range num).map (fun i => ⟨near + ((i : ℚ) + 1 / 2) * width, width⟩)⟩

/-- The uniform sampler applied to a bundle, ray by ray. -/
def UniformSampler.sample (near far : ℚ) (num : ℕ) (rb : RayBundle) : RaySamples :=
  rb.map (UniformSampler.sampleRay near far num)

/-- Insert a rational into a sorted list, keeping it sorted. -/
def insertSorted (x : ℚ) : List ℚ → List ℚ
  | [] => [x]
  | y :: ys => if x ≤ y then x :: y :: ys else y :: insertSorted x ys

/-- Insertion sort for lists of rationals. -/
def sortRat (l : List ℚ) : List ℚ := l.foldr insertSorted []

/-- Invert the piecewise-linear CDF built from the (normalized) interval
weights: walk the intervals accumulating mass until the query u falls inside
one, then interpolate linearly within that interval. -/
def invertCdfAux (u acc : ℚ) : List (RaySampleT × ℚ) → ℚ
  | [] => 0
  | (s, w) :: rest =>
      if rest.isEmpty ∨ u ≤ acc + w then
        if w = 0 then s.t else (s.t - s.delta / 2) + ((u - acc) / w) * s.delta
      else invertCdfAux u (acc + w) rest

/-- Rebuild quadrature intervals for a sorted list of depths: each delta is
the gap to the next depth, the last one reaching the given far bound. -/
def mkIntervals : List ℚ → ℚ → List RaySampleT
  | [], _ => []
  | [t], far => [⟨t, far - t⟩]
  | t :: t2 :: rest, far => ⟨t, t2 - t⟩ :: mkIntervals (t2 :: rest) far

/-- Modelled from the spec: PDFSampler (spec sections 4.5 and 9) is not part
of the source slice; the coarse weights are treated as an empirical density
along the ray and num_samples new depths are drawn by deterministic
stratified inverse-CDF sampling over the coarse quadrature intervals; when
every weight is zero the sampler falls back to uniform sampling within the
coarse bounds (the documented design choice); the new depths are merged and
sorted with the coarse depths. -/
def PDFSampler.sampleRay (num : ℕ) (one : RaySamplesOne) (ws : List ℚ) : RaySamplesOne :=
  let tmin := match one.samples with
    | [] => 0
    | s :: _ => s.t - s.delta / 2
  let lastS := one.samples.getLastD ⟨0, 0⟩
  let tmax := lastS.t + lastS.delta / 2
  let total := ws.sum
  let fineTs :=
    if total = 0 then
      (List.range num).map (fun j => tmin + (((j : ℚ) + 1 / 2) / (num : ℚ)) * (tmax - tmin))
    else
      (List.range num).map (fun j =>
        invertCdfAux (((j : ℚ) + 1 / 2) / (num : ℚ)) 0
          (List.zipWith (fun s w => (s, w / total)) one.samples ws))
  let merged := sortRat (one.samples.map RaySampleT.t ++ fineTs)
  ⟨one.ray, mkIntervals merged tmax⟩

/-- The PDF sampler applied to a bundle, ray by ray. -/
def PDFSampler.sample (num : ℕ) (rs : RaySamples) (weights : List (List ℚ)) : RaySamples :=
  List.zipWith (PDFSampler.sampleRay num) rs weights

/-- Modelled from the spec: RGBRenderer (spec section 4.6) is not part of the
source slice; per ray, the output color is the weight-weighted sum of the
per-sample colors plus the background color weighted by one minus the total
weight. -/
def RGBRenderer.render (bg : Vec3) (rgbs : List (List Vec3)) (weights : List (List ℚ)) :
    List Vec3 :=
  List.zipWith
    (fun rgbRay wRay => v3add (v3sum (List.zipWith v3smul wRay rgbRay)) (v3smul (1 - wRay.sum) bg))
    rgbs weights

/-- Modelled from the spec: AccumulationRenderer (spec section 4.6) is not
part of the source slice; per ray, the accumulation is the sum of weights. -/
def AccumulationRenderer.render (weights : List (List ℚ)) : List ℚ :=
  weights.map List.sum

/-- Modelled from the spec: DepthRenderer (spec section 4.6) is not part of
the source slice; per ray, the depth is the weight-weighted sum of sample
depths. -/
def DepthRenderer.render (weights ts : List (List ℚ)) : List ℚ :=
  List.zipWith (fun wRay tRay => (List.zipWith (fun w t => w * t) wRay tRay).sum) weights ts

/-- A per-ray output tensor of get_outputs: an image-like color per ray or a
scalar per ray. -/
inductive OutVal where
  | img (v : List Vec3)
  | sca (v : List ℚ)
deriving DecidableEq

/-- The string-keyed outputs dict of get_outputs, in insertion order. -/
abbrev Outputs : Type := List (String × OutVal)

/-- The white background color (colors.WHITE). -/
def colors.WHITE : Vec3 := (1, 1, 1)

/-- The NeRFGraph configuration and modules after populate_modules: near/far
planes, sample counts, the two fields, and the RGB renderer background
color. -/
structure NeRFGraph where
  nearPlane : ℚ
  farPlane : ℚ
  numCoarseSamples : ℕ
  numImportanceSamples : ℕ
  fieldCoarse : NeRFField
  fieldFine : NeRFField
  backgroundColor : Vec3

/-- Construction of the graph as in NeRFGraph.__init__ + populate_modules:
the uniform sampler takes the near/far planes and the coarse sample count,
the PDF sampler the importance sample count, and the RGB renderer background
is fixed to colors.WHITE. -/
def NeRFGraph.make (near far : ℚ) (nc ni : ℕ) (fc ff : NeRFField) : NeRFGraph :=
  ⟨near, far, nc, ni, fc, ff, colors.WHITE⟩

/-- NeRFGraph.get_outputs translated statement by statement in state-passing
style: every step only reads the graph (configuration, samplers, fields,
renderers); the final state returned is the graph the call started from,
since no statement of the source assigns an attribute.  E models exp inside
get_weights. -/
def NeRFGraph.getOutputsSt (E : ℚ → ℚ) (g : NeRFGraph) (rb : RayBundle) :
    Outputs × NeRFGraph :=
  let uniformRaySamples := UniformSampler.sample g.nearPlane g.farPlane g.numCoarseSamples rb
  let coarseFieldOutputs := NeRFField.forward g.fieldCoarse uniformRaySamples
  let coarseWeights := RaySamples.getWeights E uniformRaySamples coarseFieldOutputs.densityOf
  let coarseRendererOutputs :=
    RGBRenderer.render g.backgroundColor coarseFieldOutputs.rgbOf coarseWeights
  let coarseRendererAccumulation := AccumulationRenderer.render coarseWeights
  let coarseRendererDepth := DepthRenderer.render coarseWeights uniformRaySamples.ts
  let pdfRaySamples := PDFSampler.sample g.numImportanceSamples uniformRaySamples coarseWeights
  let fineFieldOutputs := NeRFField.forward g.fieldFine pdfRaySamples
  let fineWeights := RaySamples.getWeights E pdfRaySamples fineFieldOutputs.densityOf
  let fineRendererOutputs :=
    RGBRenderer.render g.backgroundColor fineFieldOutputs.rgbOf fineWeights
  let fineRendererAccumulation := AccumulationRenderer.render fineWeights
  let fineRendererDepth := DepthRenderer.render fineWeights pdfRaySamples.ts
  let outputs : Outputs :=
    [("rgb_coarse", OutVal.img coarseRendererOutputs),
     ("rgb_fine", OutVal.img fineRendererOutputs),
     ("accumulation_coarse", OutVal.sca coarseRendererAccumulation),
     ("accumulation_fine", OutVal.sca fineRendererAccumulation),
     ("depth_coarse", OutVal.sca coarseRendererDepth),
     ("depth_fine", OutVal.sca fineRendererDepth)]
  (outputs, g)

/-- NeRFGraph.get_outputs: the outputs component of the call. -/
def NeRFGraph.getOutputs (E : ℚ → ℚ) (g : NeRFGraph) (rb : RayBundle) : Outputs :=
  (NeRFGraph.getOutputsSt E g rb).1

/-- C1: get_outputs runs the coarse stage (uniform sampling, coarse field,
coarse weights and renders) then the fine stage (PDF sampling driven by the
uniform samples and the coarse weights, fine field, fine renders), and
returns exactly the six keys rgb_coarse, rgb_fine, accumulation_coarse,
accumulation_fine, depth_coarse, depth_fine, each bound to the corresponding
renderer output of its stage. -/
theorem getOutputs_two_stage_six_keys (E : ℚ → ℚ) (g : NeRFGraph) (rb : RayBundle) :
    NeRFGraph.getOutputs E g rb =
      (let us := UniformSampler.sample g.nearPlane g.farPlane g.numCoarseSamples rb
       let cfo := NeRFField.forward g.fieldCoarse us
       let cw := RaySamples.getWeights E us cfo.densityOf
       let ps := PDFSampler.sample g.numImportanceSamples us cw
       let ffo := NeRFField.forward g.fieldFine ps
       let fw := RaySamples.getWeights E ps ffo.densityOf
       [("rgb_coarse", OutVal.img (RGBRenderer.render g.backgroundColor cfo.rgbOf cw)),
        ("rgb_fine", OutVal.img (RGBRenderer.render g.backgroundColor ffo.rgbOf fw)),
        ("accumulation_coarse", OutVal.sca (AccumulationRenderer.render cw)),
        ("accumulation_fine", OutVal.sca (AccumulationRenderer.render fw)),
        ("depth_coarse", OutVal.sca (DepthRenderer.render cw us.ts)),
        ("depth_fine", OutVal.sca (DepthRenderer.render fw ps.ts))]) := by
  rfl

/-- C9: get_outputs is read-only on the graph: the state threaded through the
statement-by-statement translation comes back unchanged — no field
parameters, sampler or renderer configuration, nor any other attribute of
the graph is assigned during the call. -/
theorem getOutputsSt_preserves_graph (E : ℚ → ℚ) (g : NeRFGraph) (rb : RayBundle) :
    (NeRFGraph.getOutputsSt E g rb).2 = g := by
  rfl

/-- Every element of a zipWith comes from a pair of elements of the inputs. -/
theorem exists_of_mem_zipWith {α β γ : Type} {f : α → β → γ} :
    ∀ {l1 : List α} {l2 : List β} {c : γ},
      c ∈ List.zipWith f l1 l2 → ∃ a ∈ l1, ∃ b ∈ l2, c = f a b := by
  intro l1
  induction l1 with
  | nil => intro l2 c h; simp [List.zipWith] at h
  | cons a as ih =>
    intro l2 c h
    cases l2 with
    | nil => simp [List.zipWith] at h
    | cons b bs =>
      rcases List.mem_cons.mp h with h1 | h2
      · exact ⟨a, List.mem_cons_self a as, b, List.mem_cons_self b bs, h1⟩
      · obtain ⟨a2, ha2, b2, hb2, hc⟩ := ih h2
        exact ⟨a2, List.mem_cons_of_mem a ha2, b2, List.mem_cons_of_mem b hb2, hc⟩

/-- Every weight produced by weightsAux from a nonnegative transmittance and
alphas in [0, 1] is nonnegative. -/
theorem weightsAux_nonneg {T : ℚ} {as : List ℚ} (hT : 0 ≤ T)
    (ha : ∀ a ∈ as, 0 ≤ a ∧ a ≤ 1) : ∀ w ∈ weightsAux T as, 0 ≤ w := by
  induction as generalizing T with
  | nil => intro w hw; simp [weightsAux] at hw
  | cons a as ih =>
    intro w hw
    have haa := ha a (List.mem_cons_self a as)
    rcases List.mem_cons.mp hw with h1 | h2
    · exact h1 ▸ mul_nonneg hT haa.1
    · exact ih (mul_nonneg hT (by linarith [haa.2])) (fun x hx => ha x (List.mem_cons_of_mem a hx)) w h2

/-- The weights produced by weightsAux from transmittance T and alphas in
[0, 1] sum to at most T (their sum telescopes to T minus the product of the
survival factors). -/
theorem weightsAux_sum_le {T : ℚ} {as : List ℚ} (hT : 0 ≤ T)
    (ha : ∀ a ∈ as, 0 ≤ a ∧ a ≤ 1) : (weightsAux T as).sum ≤ T := by
  induction as generalizing T with
  | nil => simpa [weightsAux] using hT
  | cons a as ih =>
    have haa := ha a (List.mem_cons_self a as)
    have hrec := ih (T := T * (1 - a)) (mul_nonneg hT (by linarith [haa.2]))
      (fun x hx => ha x (List.mem_cons_of_mem a hx))
    simp only [weightsAux, List.sum_cons]
    nlinarith [haa.1, haa.2, hT]

/-- Under the exp model hypotheses, each alpha computed from a nonnegative
density and interval length lies in [0, 1]. -/
theorem alphaOf_mem_unit {E : ℚ → ℚ} (hE : ∀ x : ℚ, x ≤ 0 → 0 ≤ E x ∧ E x ≤ 1)
    {σ δ : ℚ} (hσ : 0 ≤ σ) (hδ : 0 ≤ δ) : 0 ≤ alphaOf E σ δ ∧ alphaOf E σ δ ≤ 1 := by
  have hx : -(σ * δ) ≤ 0 := neg_nonpos.mpr (mul_nonneg hσ hδ)
  have hb := hE (-(σ * δ)) hx
  constructor
  · simp only [alphaOf]; linarith [hb.2]
  · simp only [alphaOf]; linarith [hb.1]

/-- C5: for every RaySamples with nonnegative interval lengths and every
nonnegative density tensor, the per-ray weights returned by get_weights are
all nonnegative and sum to at most 1, given that the modelled exponential
sends nonpositive arguments into [0, 1]. -/
theorem getWeights_nonneg_sum_le_one (E : ℚ → ℚ) (rs : RaySamples)
    (densities : List (List ℚ))
    (hE : ∀ x : ℚ, x ≤ 0 → 0 ≤ E x ∧ E x ≤ 1)
    (hσ : ∀ ds ∈ densities, ∀ σ ∈ ds, 0 ≤ σ)
    (hδ : ∀ one ∈ rs, ∀ s ∈ one.samples, 0 ≤ s.delta) :
    ∀ ws ∈ RaySamples.getWeights E rs densities, (∀ w ∈ ws, 0 ≤ w) ∧ ws.sum ≤ 1 := by
  intro ws hws
  obtain ⟨one, hone, ds, hds, hval⟩ := exists_of_mem_zipWith hws
  subst hval
  have halpha : ∀ a ∈ List.zipWith (fun σ s => alphaOf E σ s.delta) ds one.samples,
      0 ≤ a ∧ a ≤ 1 := by
    intro a haz
    obtain ⟨σ, hσm, s, hsm, hav⟩ := exists_of_mem_zipWith haz
    subst hav
    exact alphaOf_mem_unit hE (hσ ds hds σ hσm) (hδ one hone s hsm)
  exact ⟨weightsAux_nonneg zero_le_one halpha, weightsAux_sum_le zero_le_one halpha⟩

/-- Witness for C5: a one-ray sample set with two unit intervals, densities
1 and 2, and the constant-one exp model. -/
theorem getWeights_nonneg_sum_le_one_witness :
    ((∀ x : ℚ, x ≤ 0 → 0 ≤ (fun _ : ℚ => (1 : ℚ)) x ∧ (fun _ : ℚ => (1 : ℚ)) x ≤ 1) ∧
     (∀ ds ∈ [[(1 : ℚ), 2]], ∀ σ ∈ ds, 0 ≤ σ) ∧
     (∀ one ∈ ([⟨⟨(0, 0, 0), (0, 0, 1)⟩, [⟨1, 1⟩, ⟨2, 1⟩]⟩] : RaySamples),
        ∀ s ∈ one.samples, 0 ≤ s.delta)) ∧
    (∀ ws ∈ RaySamples.getWeights (fun _ => 1)
        [⟨⟨(0, 0, 0), (0, 0, 1)⟩, [⟨1, 1⟩, ⟨2, 1⟩]⟩] [[1, 2]],
      (∀ w ∈ ws, 0 ≤ w) ∧ ws.sum ≤ 1) :=
  ⟨⟨fun _ _ => ⟨zero_le_one, le_refl 1⟩,
    by norm_num,
    by norm_num⟩,
   getWeights_nonneg_sum_le_one (fun _ => 1) _ _
     (fun _ _ => ⟨zero_le_one, le_refl 1⟩) (by norm_num) (by norm_num)⟩

/-- A field whose density head returns zero everywhere (the learned modules
are otherwise irrelevant to the zero-density scenario). -/
def zeroDensityField : NeRFField where
  encodingXyz := fun _ => []
  encodingDir := fun _ => []
  mlpBase := fun _ => []
  mlpRgb := fun _ => []
  headRgb := fun _ => (1 / 2, 1 / 2, 1 / 2)
  headDensity := fun _ => 0

/-- The graph of the end-to-end scenario: near=2, far=6, 4 uniform samples,
zero-density fields, white background (fixed by NeRFGraph.make). -/
def scenarioGraph : NeRFGraph :=
  NeRFGraph.make 2 6 4 4 zeroDensityField zeroDensityField

/-- The 1-ray bundle of the end-to-end scenario. -/
def scenarioBundle : RayBundle := [⟨(0, 0, 0), (0, 0, 1)⟩]

/-- C4: on a 1-ray bundle with near=2, far=6, 4 uniform samples and a coarse
field of identically zero density, get_outputs returns rgb_coarse equal to
the configured white background (1,1,1), accumulation_coarse = 0 and
depth_coarse = 0, for every exp model with E 0 = 1. -/
theorem getOutputs_zero_density_white (E : ℚ → ℚ) (hE : E 0 = 1) :
    lookupKey "rgb_coarse" (NeRFGraph.getOutputs E scenarioGraph scenarioBundle) =
        some (OutVal.img [(1, 1, 1)]) ∧
    lookupKey "accumulation_coarse" (NeRFGraph.getOutputs E scenarioGraph scenarioBundle) =
        some (OutVal.sca [0]) ∧
    lookupKey "depth_coarse" (NeRFGraph.getOutputs E scenarioGraph scenarioBundle) =
        some (OutVal.sca [0]) := by
  have hne1 : FieldHeadNames.DENSITY ≠ FieldHeadNames.RGB := by decide
  have hne2 : ("accumulation_coarse" : String) ≠ "rgb_coarse" := by decide
  have hne3 : ("accumulation_coarse" : String) ≠ "rgb_fine" := by decide
  have hne4 : ("depth_coarse" : String) ≠ "rgb_coarse" := by decide
  have hne5 : ("depth_coarse" : String) ≠ "rgb_fine" := by decide
  have hne6 : ("depth_coarse" : String) ≠ "accumulation_coarse" := by decide
  have hne7 : ("depth_coarse" : String) ≠ "accumulation_fine" := by decide
  have hrep : ∀ x : Vec3, List.replicate 4 x = [x, x, x, x] := fun _ => rfl
  refine ⟨?_, ?_, ?_⟩ <;>
    norm_num [NeRFGraph.getOutputs, NeRFGraph.getOutputsSt, scenarioGraph, scenarioBundle,
      NeRFGraph.make, zeroDensityField, UniformSampler.sample, UniformSampler.sampleRay,
      NeRFField.forward, RaySamples.positions, RaySamples.directions, RaySamples.ts,
      RaySamplesOne.position, v3add, v3smul, v3sum, FieldOutputs.densityOf, FieldOutputs.rgbOf,
      lookupKey, zipWith2D, RaySamples.getWeights, alphaOf, weightsAux, hE,
      RGBRenderer.render, AccumulationRenderer.render, DepthRenderer.render,
      PDFSampler.sample, PDFSampler.sampleRay, sortRat, insertSorted, mkIntervals,
      invertCdfAux, colors.WHITE, List.range_succ, Function.comp,
      hne1, hne2, hne3, hne4, hne5, hne6, hne7, hrep]

/-- Witness for C4: the constant-one exp model satisfies E 0 = 1 and the
scenario conclusion holds for it. -/
theorem getOutputs_zero_density_white_witness :
    ((fun _ : ℚ => (1 : ℚ)) 0 = 1) ∧
    (lookupKey "rgb_coarse"
        (NeRFGraph.getOutputs (fun _ => 1) scenarioGraph scenarioBundle) =
      some (OutVal.img [(1, 1, 1)])) :=
  ⟨rfl, (getOutputs_zero_density_white (fun _ => 1) rfl).1⟩

/-- Modelled from the spec: NeRFEncoding (positional encoder, spec sections
4.1 and 8) is not part of the source slice; its output dimension is
D * (1 + 2F) with include-input and D * 2F without, queryable before any
downstream layer is built. -/
structure NeRFEncoding where
  inDim : ℕ
  numFrequencies : ℕ
  includeInput : Bool
deriving DecidableEq

/-- Output dimension of an encoding (get_out_dim). -/
def NeRFEncoding.getOutDim (e : NeRFEncoding) : ℕ :=
  if e.includeInput then e.inDim * (1 + 2 * e.numFrequencies)
  else e.inDim * (2 * e.numFrequencies)

/-- The position encoding built by NeRFField.build_encodings: in_dim=3,
10 frequencies, include_input=True. -/
def encodingXyzCfg : NeRFEncoding := ⟨3, 10, true⟩

/-- The direction encoding built by NeRFField.build_encodings: in_dim=3,
4 frequencies, include_input=True. -/
def encodingDirCfg : NeRFEncoding := ⟨3, 4, true⟩

/-- The constructor arguments of an MLP (mattport.nerf.field_modules.mlp.MLP). -/
structure MLPConfig where
  inDim : ℕ
  outDim : ℕ
  numLayers : ℕ
  layerWidth : ℕ
  skipConnections : List ℤ
deriving DecidableEq

/-- Modelled from the spec: the MLP constructor (spec sections 4.2 and 7) is
not part of the source slice; it validates at construction time that every
skip-connection index references a layer inside [0, num_layers) and fails
with a descriptive configuration error otherwise. -/
def MLP.build (cfg : MLPConfig) : Except String MLPConfig :=
  if cfg.skipConnections.all (fun i => decide (0 ≤ i ∧ i < (cfg.numLayers : ℤ))) then
    Except.ok cfg
  else
    Except.error "skip connection index out of range"

/-- The architecture of a constructed NeRFField: its two validated MLPs. -/
structure NeRFFieldArch where
  base : MLPConfig
  rgb : MLPConfig
deriving DecidableEq

/-- NeRFField construction (NeRFField.__init__): build the encodings, then
the base MLP — in_dim from the position encoding, the configured layer
count, width and skip connections — then the RGB MLP — in_dim the base out
dimension plus the direction encoding out dimension, 2 layers of half
width, no skip connections.  A configuration error in either MLP aborts
construction before any forward pass can run. -/
def NeRFFieldArch.build (numLayers layerWidth : ℕ) (skips : List ℤ) :
    Except String NeRFFieldArch :=
  match MLP.build ⟨encodingXyzCfg.getOutDim, layerWidth, numLayers, layerWidth, skips⟩ with
  | Except.error e => Except.error e
  | Except.ok base =>
    match MLP.build
        ⟨base.outDim + encodingDirCfg.getOutDim, layerWidth / 2, 2, layerWidth / 2, []⟩ with
    | Except.error e => Except.error e
    | Except.ok rgb => Except.ok ⟨base, rgb⟩

/-- C6: constructing a NeRFField with any skip-connection index outside
[0, num_layers) fails with a configuration error at construction time, and
construction with the default skip_connections=(4,) and num_layers=8
succeeds. -/
theorem build_skip_validation (numLayers layerWidth : ℕ) (skips : List ℤ) (i : ℤ)
    (hmem : i ∈ skips) (hout : i < 0 ∨ (numLayers : ℤ) ≤ i) :
    (∃ e, NeRFFieldArch.build numLayers layerWidth skips = Except.error e) ∧
    (∃ a, NeRFFieldArch.build 8 256 [4] = Except.ok a) := by
  constructor
  · have hall : skips.all (fun i => decide (0 ≤ i ∧ i < (numLayers : ℤ))) = false := by
      rw [List.all_eq_false]
      refine ⟨i, hmem, ?_⟩
      simp only [decide_eq_true_eq]
      omega
    refine ⟨"skip connection index out of range", ?_⟩
    unfold NeRFFieldArch.build MLP.build
    rw [hall]
    rfl
  · exact ⟨_, rfl⟩

/-- Witness for C6: skip index 10 with num_layers=8 fails, the default
succeeds. -/
theorem build_skip_validation_witness :
    ((10 : ℤ) ∈ ([10] : List ℤ) ∧ ((10 : ℤ) < 0 ∨ ((8 : ℕ) : ℤ) ≤ 10)) ∧
    ((∃ e, NeRFFieldArch.build 8 256 [10] = Except.error e) ∧
     (∃ a, NeRFFieldArch.build 8 256 [4] = Except.ok a)) :=
  ⟨⟨by decide, by norm_num⟩,
   build_skip_validation 8 256 [10] 10 (by decide) (by norm_num)⟩

/-- A constructed field instance: the id of the construction that produced
it (0 for the coarse field, 1 for the fine field) together with its
architecture.  The id models Python object identity — parameter tensors
belong to the instance that created them. -/
structure NeRFFieldInst where
  instId : ℕ
  arch : NeRFFieldArch
deriving DecidableEq

/-- Modelled from the spec: nn.Module.parameters is not part of the source
slice; the learnable parameters of a field are its leaf tensors — a weight
and a bias for each layer of the two MLPs and for each of the two heads —
each identified by the owning instance and a position. -/
def NeRFFieldInst.parameters (f : NeRFFieldInst) : List (ℕ × ℕ) :=
  (List.range (2 * (f.arch.base.numLayers + f.arch.rgb.numLayers + 2))).map
    (fun k => (f.instId, k))

/-- NeRFGraph.populate_fields: construct the coarse and fine fields as two
independent NeRFField() instances with the default architecture. -/
def populateFields : Except String (NeRFFieldInst × NeRFFieldInst) :=
  match NeRFFieldArch.build 8 256 [4], NeRFFieldArch.build 8 256 [4] with
  | Except.ok c, Except.ok f => Except.ok (⟨0, c⟩, ⟨1, f⟩)
  | Except.error e, _ => Except.error e
  | _, Except.error e => Except.error e

/-- NeRFGraph.get_param_groups: a mapping with the single group "fields"
bound to the parameters of the coarse field followed by those of the fine
field. -/
def getParamGroups (fieldCoarse fieldFine : NeRFFieldInst) :
    List (String × List (ℕ × ℕ)) :=
  [("fields", fieldCoarse.parameters ++ fieldFine.parameters)]

/-- C8: populate_fields produces two separately constructed field instances
of identical architecture sharing no parameters, and get_param_groups binds
the group "fields" to the coarse parameters followed by the fine
parameters. -/
theorem paramGroups_fields_coarse_fine :
    ∃ fc ff : NeRFFieldInst,
      populateFields = Except.ok (fc, ff) ∧
      getParamGroups fc ff = [("fields", fc.parameters ++ ff.parameters)] ∧
      fc.arch = ff.arch ∧
      fc.instId ≠ ff.instId ∧
      fc.parameters ≠ [] ∧
      ∀ p ∈ fc.parameters, p ∉ ff.parameters := by
  refine ⟨⟨0, ⟨⟨63, 256, 8, 256, [4]⟩, ⟨283, 128, 2, 128, []⟩⟩⟩,
          ⟨1, ⟨⟨63, 256, 8, 256, [4]⟩, ⟨283, 128, 2, 128, []⟩⟩⟩,
          rfl, rfl, rfl, by decide, by decide, by decide⟩

/-- Modelled from the spec: MSELoss is not part of the source slice; the
photometric loss between per-ray ground-truth pixels and rendered colors is
the mean over all color components of the squared differences. -/
def mseLoss (gt pred : List Vec3) : ℚ :=
  let diffs := List.zipWith
    (fun a b : Vec3 => (a.1 - b.1) ^ 2 + (a.2.1 - b.2.1) ^ 2 + (a.2.2 - b.2.2) ^ 2) gt pred
  diffs.sum / (3 * (diffs.length : ℚ))

/-- Modelled from the spec: get_aggregated_loss_from_loss_dict of the base
Graph is not part of the source slice; the aggregated scalar combines the
per-term losses by summation. -/
def aggregatedLossOf (lossTerms : List (String × ℚ)) : ℚ :=
  (lossTerms.map Prod.snd).sum

/-- NeRFGraph.get_loss_dict: read rgb_coarse and rgb_fine from the outputs
(none models the KeyError a missing key would raise), compute the
photometric loss of each against the batch pixels, then append the
aggregated scalar computed from the two per-term losses. -/
def NeRFGraph.getLossDict (outputs : Outputs) (pixels : List Vec3) :
    Option (List (String × ℚ)) :=
  match lookupKey "rgb_coarse" outputs, lookupKey "rgb_fine" outputs with
  | some (OutVal.img rc), some (OutVal.img rf) =>
    let lossDict := [("rgb_loss_coarse", mseLoss pixels rc),
                     ("rgb_loss_fine", mseLoss pixels rf)]
    some (lossDict ++ [("aggregated_loss", aggregatedLossOf lossDict)])
  | _, _ => none

/-- C7: whenever the outputs carry rgb_coarse and rgb_fine, get_loss_dict
returns the coarse MSE term against the batch pixels, the fine MSE term
against the same pixels, and the aggregated scalar combining the two. -/
theorem getLossDict_mse_terms (outputs : Outputs) (pixels rc rf : List Vec3)
    (hc : lookupKey "rgb_coarse" outputs = some (OutVal.img rc))
    (hf : lookupKey "rgb_fine" outputs = some (OutVal.img rf)) :
    NeRFGraph.getLossDict outputs pixels =
      some [("rgb_loss_coarse", mseLoss pixels rc),
            ("rgb_loss_fine", mseLoss pixels rf),
            ("aggregated_loss", mseLoss pixels rc + mseLoss pixels rf)] := by
  simp [NeRFGraph.getLossDict, hc, hf, aggregatedLossOf]

/-- Witness for C7: concrete outputs with black coarse and red fine renders
against a white pixel; the losses evaluate to 1, 2/3 and 5/3. -/
theorem getLossDict_mse_terms_witness :
    (lookupKey "rgb_coarse"
        ([("rgb_coarse", OutVal.img [(0, 0, 0)]), ("rgb_fine", OutVal.img [(1, 0, 0)])] :
          Outputs) = some (OutVal.img [(0, 0, 0)]) ∧
     lookupKey "rgb_fine"
        ([("rgb_coarse", OutVal.img [(0, 0, 0)]), ("rgb_fine", OutVal.img [(1, 0, 0)])] :
          Outputs) = some (OutVal.img [(1, 0, 0)])) ∧
    NeRFGraph.getLossDict
        [("rgb_coarse", OutVal.img [(0, 0, 0)]), ("rgb_fine", OutVal.img [(1, 0, 0)])]
        [(1, 1, 1)] =
      some [("rgb_loss_coarse", 1), ("rgb_loss_fine", 2 / 3), ("aggregated_loss", 5 / 3)] :=
  ⟨⟨by decide, by decide⟩,
   (getLossDict_mse_terms
      [("rgb_coarse", OutVal.img [(0, 0, 0)]), ("rgb_fine", OutVal.img [(1, 0, 0)])]
      [(1, 1, 1)] [(0, 0, 0)] [(1, 0, 0)] (by decide) (by decide)).trans
     (by norm_num [mseLoss])⟩
